import Mathlib

/-!
Formal model of the NotesCLI note-taking tool (src/cli.js).

The tool persists a list of notes as one JSON file.  We model the store file
abstractly by what it contains (missing, empty, malformed, unreadable, or a
parsed JSON value), JavaScript values arising from JSON.parse by an inductive
Json type, and the nondeterministic platform facilities (crypto.randomUUID,
new Date) by explicit supply functions passed as parameters: the k-th call to
the id generator returns ids k, the k-th call to the clock returns nows k.

Modelling notes, collected here:
- JSON numbers are modelled as integers; the store this program writes only
  ever contains string fields, and no claim involves fractional numbers.
- Object field lists represent JavaScript objects after JSON.parse: keys are
  unique and listed in insertion order.  Property assignment to an existing
  key updates it in place; assignment of a new key appends it.
- Property reads on primitive values (numbers, strings, booleans) yield
  undefined and assignments to them are silently ignored in sloppy mode;
  reads on null throw a TypeError.  Expando properties that an assignment
  would attach to a nested array value are not modelled: they are invisible
  to JSON serialization and no claim depends on them.
- Array.prototype.sort is modelled as a stable insertion sort; ECMAScript
  specifies the result only for consistent comparators, and there every
  stable sort agrees.
- Date parsing (new Date(s).getTime()) is platform behaviour.  We model it
  for the one format the program itself writes, toISOString output
  YYYY-MM-DDTHH:mm:ss.sssZ, mapped monotonically to an integer key; every
  other string is modelled as an invalid date, and the Date constructor
  never throws.
-/

namespace NotesCLI

/-- JavaScript values produced by JSON.parse. -/
inductive Json where
  | null : Json
  | bool (b : Bool) : Json
  | num (n : Int) : Json
  | str (s : String) : Json
  | arr (elems : List Json) : Json
  | obj (fields : List (String × Json)) : Json

mutual

/-- Structural equality test for Json values. -/
def Json.beq : Json → Json → Bool
  | .null, .null => true
  | .bool a, .bool b => a == b
  | .num a, .num b => a == b
  | .str a, .str b => a == b
  | .arr xs, .arr ys => Json.beqList xs ys
  | .obj fs, .obj gs => Json.beqFields fs gs
  | _, _ => false

/-- Structural equality test for Json lists. -/
def Json.beqList : List Json → List Json → Bool
  | [], [] => true
  | x :: xs, y :: ys => Json.beq x y && Json.beqList xs ys
  | _, _ => false

/-- Structural equality test for Json object field lists. -/
def Json.beqFields : List (String × Json) → List (String × Json) → Bool
  | [], [] => true
  | (k, v) :: fs, (k2, v2) :: gs => k == k2 && Json.beq v v2 && Json.beqFields fs gs
  | _, _ => false

end

mutual

def Json.eq_of_beq : ∀ {a b : Json}, Json.beq a b = true → a = b
  | .null, .null, _ => rfl
  | .bool _, .bool _, h => by simpa [Json.beq] using h
  | .num _, .num _, h => by simpa [Json.beq] using h
  | .str _, .str _, h => by simpa [Json.beq] using h
  | .arr xs, .arr ys, h => by
    rw [Json.eqList_of_beq (a := xs) (b := ys) (by simpa [Json.beq] using h)]
  | .obj fs, .obj gs, h => by
    rw [Json.eqFields_of_beq (a := fs) (b := gs) (by simpa [Json.beq] using h)]

def Json.eqList_of_beq : ∀ {a b : List Json}, Json.beqList a b = true → a = b
  | [], [], _ => rfl
  | x :: xs, y :: ys, h => by
    have h1 : Json.beq x y = true ∧ Json.beqList xs ys = true := by
      simpa [Json.beqList, Bool.and_eq_true] using h
    rw [Json.eq_of_beq h1.1, Json.eqList_of_beq h1.2]

def Json.eqFields_of_beq : ∀ {a b : List (String × Json)}, Json.beqFields a b = true → a = b
  | [], [], _ => rfl
  | (k, v) :: fs, (k2, v2) :: gs, h => by
    have h1 : (k == k2) = true ∧ Json.beq v v2 = true ∧ Json.beqFields fs gs = true := by
      simpa [Json.beqFields, Bool.and_eq_true, and_assoc] using h
    have hk : k = k2 := by simpa using h1.1
    rw [hk, Json.eq_of_beq h1.2.1, Json.eqFields_of_beq h1.2.2]

end

mutual

def Json.beq_refl : ∀ (a : Json), Json.beq a a = true
  | .null => rfl
  | .bool _ => by simp [Json.beq]
  | .num _ => by simp [Json.beq]
  | .str _ => by simp [Json.beq]
  | .arr xs => by simpa [Json.beq] using Json.beqList_refl xs
  | .obj fs => by simpa [Json.beq] using Json.beqFields_refl fs

def Json.beqList_refl : ∀ (a : List Json), Json.beqList a a = true
  | [] => rfl
  | x :: xs => by
    simp [Json.beqList, Bool.and_eq_true]
    exact ⟨Json.beq_refl x, Json.beqList_refl xs⟩

def Json.beqFields_refl : ∀ (a : List (String × Json)), Json.beqFields a a = true
  | [] => rfl
  | (k, v) :: fs => by
    simp [Json.beqFields, Bool.and_eq_true]
    exact ⟨Json.beq_refl v, Json.beqFields_refl fs⟩

end

instance : DecidableEq Json := fun a b =>
  decidable_of_iff (Json.beq a b = true) ⟨Json.eq_of_beq, fun h => h ▸ Json.beq_refl a⟩

/-- Property read on a JavaScript object: first (unique) matching key. -/
def getField (fs : List (String × Json)) (k : String) : Option Json :=
  (fs.find? (fun p => p.1 == k)).map (fun p => p.2)

/-- Property assignment on a JavaScript object: update an existing key in
place, otherwise append the new key. -/
def setField (fs : List (String × Json)) (k : String) (v : Json) : List (String × Json) :=
  if fs.any (fun p => p.1 == k) then
    fs.map (fun p => if p.1 == k then (k, v) else p)
  else
    fs ++ [(k, v)]

/-- JavaScript truthiness of a parsed JSON value (NaN cannot arise from
JSON.parse of the integers we model). -/
def jsTruthy : Json → Bool
  | .null => false
  | .bool b => b
  | .num n => n != 0
  | .str s => s != ""
  | .arr _ => true
  | .obj _ => true

/-- Truthiness of a property read that may have yielded undefined. -/
def jsFalsyOpt : Option Json → Bool
  | none => true
  | some v => !jsTruthy v

/-- The state of the notes store file on disk, by what loading it observes:
absent, present with zero length, non-empty but not valid JSON (JSON.parse
raises SyntaxError), unreadable (readFileSync raises a non-SyntaxError), or
parsing to a JSON value. -/
inductive StoreFile where
  | missing : StoreFile
  | emptyFile : StoreFile
  | malformed : StoreFile
  | ioError : StoreFile
  | content (j : Json) : StoreFile
deriving DecidableEq


/-- Normalization of one record of the parsed array, from the map callback in
loadNotes: if note.created_at is falsy it is assigned the current timestamp,
then if note.id is falsy it is assigned a fresh short id.  Reading a property
of null throws a TypeError; on other primitives the reads yield undefined and
the assignments evaluate their right-hand sides (consuming one clock value
and one generated id) but do not stick.  Returns the element together with
the updated supply cursors. -/
def normElem (nows ids : Nat → String) (t i : Nat) : Json → Except Unit (Json × Nat × Nat)
  | .null => .error ()
  | .obj fs =>
    let p1 : List (String × Json) × Nat :=
      if jsFalsyOpt (getField fs "created_at") then
        (setField fs "created_at" (.str (nows t)), t + 1)
      else
        (fs, t)
    let p2 : List (String × Json) × Nat :=
      if jsFalsyOpt (getField p1.1 "id") then
        (setField p1.1 "id" (.str (ids i)), i + 1)
      else
        (p1.1, i)
    .ok (.obj p2.1, p1.2, p2.2)
  | j => .ok (j, t + 1, i + 1)

/-- The normalization map over the parsed array, left to right; a TypeError
thrown on any element aborts the whole map. -/
def normList (nows ids : Nat → String) : List Json → Nat → Nat → Except Unit (List Json × Nat × Nat)
  | [], t, i => .ok ([], t, i)
  | e :: rest, t, i =>
    match normElem nows ids t i e with
    | .error () => .error ()
    | .ok (e1, t1, i1) =>
      match normList nows ids rest t1 i1 with
      | .error () => .error ()
      | .ok (l, t2, i2) => .ok (e1 :: l, t2, i2)

/-- Outcome of loadNotes: the notes returned, which user message was
emitted (the corrupted-file warning for SyntaxError, the generic load error
otherwise), the supply cursors after the normalization pass, and the store
file after loading.  loadNotes performs no write, so the store component is
always the input store. -/
structure LoadResult where
  notes : List Json
  warnedCorrupt : Bool
  erroredLoad : Bool
  timeUsed : Nat
  idUsed : Nat
  store : StoreFile
deriving DecidableEq


/-- loadNotes: returns [] for a missing or zero-length file; parses the file
otherwise.  A SyntaxError warns and returns []; any other error (including
the TypeError from calling .map on a non-array value or from touching a null
element) reports an error and returns []. -/
def loadNotes (st : StoreFile) (nows ids : Nat → String) : LoadResult :=
  match st with
  | .missing => ⟨[], false, false, 0, 0, st⟩
  | .emptyFile => ⟨[], false, false, 0, 0, st⟩
  | .malformed => ⟨[], true, false, 0, 0, st⟩
  | .ioError => ⟨[], false, true, 0, 0, st⟩
  | .content j =>
    match j with
    | .arr xs =>
      match normList nows ids xs 0 0 with
      | .ok (l, t, i) => ⟨l, false, false, t, i, st⟩
      | .error () => ⟨[], false, true, 0, 0, st⟩
    | _ => ⟨[], false, true, 0, 0, st⟩

/-- saveNotes: writeFileSync truncates and rewrites the whole file with the
serialization of the full list, regardless of the previous contents. -/
def saveNotes (_st : StoreFile) (notes : List Json) : StoreFile :=
  .content (.arr notes)

/-- A well-formed note of the data model, with the four string fields. -/
structure Note where
  id : String
  title : String
  description : String
  created_at : String
deriving DecidableEq


/-- The JavaScript object createNote builds: the object literal lists the
properties in the order id, title, description, created_at. -/
def noteToJson (n : Note) : Json :=
  .obj [("id", .str n.id), ("title", .str n.title),
        ("description", .str n.description), ("created_at", .str n.created_at)]

/-- Outcome of createNote: the new store and the created note. -/
structure CreateOutcome where
  store : StoreFile
  note : Json
deriving DecidableEq


/-- createNote: load, build the new note (consuming one fresh id and one
clock value after those consumed by the load), append, save. -/
def createNote (st : StoreFile) (title descr : String) (nows ids : Nat → String) :
    CreateOutcome :=
  let r := loadNotes st nows ids
  let newNote : Json := noteToJson ⟨ids r.idUsed, title, descr, nows r.timeUsed⟩
  ⟨saveNotes st (r.notes ++ [newNote]), newNote⟩

/-- The strict equality test note.id === noteId of the delete filter: true
exactly when the element is an object whose id property is the given
string (undefined or a non-string id is never strictly equal to a string). -/
def idMatches (noteId : String) : Json → Bool
  | .obj fs =>
    match getField fs "id" with
    | some (.str s) => s == noteId
    | _ => false
  | _ => false

/-- Outcome of deleteNote: the store afterwards and which message was
printed (found = true for the deleted-successfully message, false for the
no-note-found message). -/
structure DeleteOutcome where
  store : StoreFile
  found : Bool
deriving DecidableEq


/-- deleteNote: load, filter out every element whose id strictly equals the
given id, and save only when the count shrank. -/
def deleteNote (st : StoreFile) (noteId : String) (nows ids : Nat → String) : DeleteOutcome :=
  let r := loadNotes st nows ids
  let kept := r.notes.filter (fun n => !(idMatches noteId n))
  if kept.length < r.notes.length then
    ⟨saveNotes st kept, true⟩
  else
    ⟨st, false⟩

/-- The delete branch of main: missing id argument exits with status 1
before any store access; otherwise deleteNote runs and the process exits
normally with status 0.  Returns the final store and the exit status. -/
def mainDelete (st : StoreFile) (arg : Option String) (nows ids : Nat → String) :
    StoreFile × Nat :=
  match arg with
  | none => (st, 1)
  | some noteId => ((deleteNote st noteId nows ids).store, 0)

/-- Gregorian leap year. -/
def isLeapYear (y : Nat) : Bool :=
  (y % 4 == 0 && y % 100 != 0) || y % 400 == 0

/-- Number of days in a month. -/
def daysInMonth (y m : Nat) : Nat :=
  if m == 2 then (if isLeapYear y then 29 else 28)
  else if m == 4 || m == 6 || m == 9 || m == 11 then 30
  else 31

/-- Numeric value of two decimal digit characters. -/
def digit2 (a b : Char) : Nat :=
  (a.toNat - 48) * 10 + (b.toNat - 48)

/-- Platform date parsing, modelled for the one format the program writes
(toISOString output YYYY-MM-DDTHH:mm:ss.sssZ): a valid timestamp of that
format is mapped to an integer key strictly monotone in the instant it
denotes; every other string is modelled as an invalid date (NaN time). -/
def parseISODate (s : String) : Option Int :=
  match s.toList with
  | [y1, y2, y3, y4, ha, mo1, mo2, hb, d1, d2, tt, hh1, hh2, ca, mi1, mi2, cb,
     ss1, ss2, dt, ms1, ms2, ms3, zz] =>
    if (ha == '-' && hb == '-' && tt == 'T' && ca == ':' && cb == ':' &&
        dt == '.' && zz == 'Z' &&
        [y1, y2, y3, y4, mo1, mo2, d1, d2, hh1, hh2, mi1, mi2, ss1, ss2,
         ms1, ms2, ms3].all Char.isDigit) then
      let y := digit2 y1 y2 * 100 + digit2 y3 y4
      let mo := digit2 mo1 mo2
      let d := digit2 d1 d2
      let hh := digit2 hh1 hh2
      let mi := digit2 mi1 mi2
      let ss := digit2 ss1 ss2
      let ms := digit2 ms1 ms2 * 10 + (ms3.toNat - 48)
      if (1 ≤ mo && mo ≤ 12 && 1 ≤ d && d ≤ daysInMonth y mo &&
          hh ≤ 23 && mi ≤ 59 && ss ≤ 59) then
        some (Int.ofNat (((((y * 100 + mo) * 100 + d) * 100 + hh) * 100 + mi) * 100 + ss) * 1000
              + Int.ofNat ms)
      else
        none
    else
      none
  | _ => none

/-- new Date(v).getTime() for a JSON-derived value v: a string parses via
the ISO model; a number is epoch milliseconds; null and booleans coerce to
0 and 1; arrays and objects coerce through strings our ISO model rejects. -/
def jsDateOf : Json → Option Int
  | .str s => parseISODate s
  | .num n => some n
  | .null => some 0
  | .bool b => some (if b then 1 else 0)
  | .arr _ => none
  | .obj _ => none

/-- The time of a note element as read by the sort comparator: reading
created_at on a non-object or a missing property yields undefined, and
new Date(undefined) is an invalid date. -/
def createdAtOf : Json → Option Int
  | .obj fs =>
    match getField fs "created_at" with
    | some v => jsDateOf v
    | none => none
  | _ => none

/-- The sort comparator of listNotes: dateB.getTime() - dateA.getTime();
when either time is NaN the difference is NaN, which SortCompare treats as
0. -/
def listCompare (a b : Json) : Int :=
  match createdAtOf b, createdAtOf a with
  | some tb, some ta => tb - ta
  | _, _ => 0

/-- The sort order induced by the comparator: a may come before b when the
comparator does not require b first. -/
def jsLe (a b : Json) : Bool :=
  decide (listCompare a b ≤ 0)

/-- Insert an element into a list, before the first element it may precede. -/
def orderedInsert {α : Type} (le : α → α → Bool) (a : α) : List α → List α
  | [] => [a]
  | b :: l => if le a b then a :: b :: l else b :: orderedInsert le a l

/-- Stable insertion sort, our model of Array.prototype.sort: ECMAScript
specifies the result only for consistent comparators, and there every
stable sort agrees. -/
def insertionSort {α : Type} (le : α → α → Bool) : List α → List α
  | [] => []
  | a :: l => orderedInsert le a (insertionSort le l)

/-- Outcome of listNotes: the notes in display order, which message was
emitted, and the store file afterwards (listNotes performs no write). -/
structure ListOutcome where
  displayed : List Json
  emptyMsg : Bool
  warnedDates : Bool
  store : StoreFile
deriving DecidableEq

/-- listNotes: load; report no-notes on an empty list; otherwise display
the notes sorted by the comparator.  The catch around the comparator body
is unreachable because the Date constructor never throws, so the
invalid-date warning is never emitted. -/
def listNotes (st : StoreFile) (nows ids : Nat → String) : ListOutcome :=
  let r := loadNotes st nows ids
  if r.notes.isEmpty then ⟨[], true, false, st⟩
  else ⟨insertionSort jsLe r.notes, false, false, st⟩

/-- Lowercase hexadecimal digit. -/
def hexDigit (n : Nat) : Char :=
  if n < 10 then Char.ofNat (48 + n) else Char.ofNat (87 + n)

/-- Four lowercase hexadecimal digits. -/
def hex4 (n : Nat) : String :=
  String.mk [hexDigit (n / 4096 % 16), hexDigit (n / 256 % 16),
             hexDigit (n / 16 % 16), hexDigit (n % 16)]

/-- QuoteJSONString escaping of one character. -/
def escChar (c : Char) : String :=
  if c == '"' then "\\\""
  else if c == '\\' then "\\\\"
  else if c == Char.ofNat 8 then "\\b"
  else if c == Char.ofNat 9 then "\\t"
  else if c == Char.ofNat 10 then "\\n"
  else if c == Char.ofNat 12 then "\\f"
  else if c == Char.ofNat 13 then "\\r"
  else if c.toNat < 32 then "\\u" ++ hex4 c.toNat
  else String.singleton c

/-- QuoteJSONString: a JSON string literal. -/
def jsonQuote (s : String) : String :=
  "\"" ++ String.join (s.toList.map escChar) ++ "\""

mutual

/-- SerializeJSONProperty of JSON.stringify with a non-empty gap, at the
given indentation. -/
def serJson (gap indent : String) : Json → String
  | .null => "null"
  | .bool b => if b then "true" else "false"
  | .num n => toString n
  | .str s => jsonQuote s
  | .arr xs =>
    match xs with
    | [] => "[]"
    | x :: rest =>
      "[\n" ++ (indent ++ gap) ++ serList gap (indent ++ gap) x rest ++ "\n" ++ indent ++ "]"
  | .obj fs =>
    match fs with
    | [] => "\x7b\x7d"
    | (k, v) :: rest =>
      "\x7b\n" ++ (indent ++ gap) ++ serFields gap (indent ++ gap) k v rest ++ "\n" ++ indent ++ "\x7d"
termination_by j => sizeOf j

/-- Comma-and-newline separated array elements. -/
def serList (gap indent : String) (x : Json) : List Json → String
  | [] => serJson gap indent x
  | y :: rest => serJson gap indent x ++ ",\n" ++ indent ++ serList gap indent y rest
termination_by l => sizeOf x + sizeOf l

/-- Comma-and-newline separated object members, each written as the quoted
key, a colon and a space, then the value. -/
def serFields (gap indent : String) (k : String) (v : Json) : List (String × Json) → String
  | [] => jsonQuote k ++ ": " ++ serJson gap indent v
  | (k2, v2) :: rest =>
    jsonQuote k ++ ": " ++ serJson gap indent v ++ ",\n" ++ indent ++ serFields gap indent k2 v2 rest
termination_by l => sizeOf v + sizeOf l

end

/-- JSON.stringify(value, null, 4): the gap is four spaces and the
top-level indentation is empty. -/
def jsonStringify (j : Json) : String :=
  serJson "    " "" j

/-- The exact text saveNotes writes over the store file. -/
def saveNotesText (notes : List Json) : String :=
  jsonStringify (.arr notes)

/-- An element the normalization pass leaves untouched: an object whose
created_at and id properties are both truthy. -/
def normSkips : Json → Bool
  | .obj fs => !jsFalsyOpt (getField fs "created_at") && !jsFalsyOpt (getField fs "id")
  | _ => false

/-- A well-formed note in the sense of the data model invariants: non-empty
id and non-empty created_at. -/
def Note.wellFormed (n : Note) : Prop :=
  n.id ≠ "" ∧ n.created_at ≠ ""

instance (n : Note) : Decidable n.wellFormed :=
  inferInstanceAs (Decidable (n.id ≠ "" ∧ n.created_at ≠ ""))

/-- A property that is absent or holds a string. -/
def optStrField : Option Json → Bool
  | none => true
  | some (.str _) => true
  | some _ => false

/-- A record whose id and created_at properties are absent or strings. -/
def isStrRecord : Json → Bool
  | .obj fs => optStrField (getField fs "id") && optStrField (getField fs "created_at")
  | _ => false

/-- Property read on an arbitrary note value. -/
def getNoteField : Json → String → Option Json
  | .obj fs, k => getField fs k
  | _, _ => none

/-- The note holds a non-empty string at the given key. -/
def hasNonEmptyStr (n : Json) (k : String) : Prop :=
  ∃ s, getNoteField n k = some (.str s) ∧ s ≠ ""

/-! The pretty-printed store format described by the specification, written
from its words (4-space indentation, key order id, title, description,
created_at, one array of flat note objects), independently of the
serializer, as the shape to compare the serializer against. -/

/-- One note object as the specification describes it: each key on its own
line at two indentation levels (8 spaces), in the order id, title,
description, created_at. -/
def specPrettyNote (n : Note) : String :=
  "\x7b\n        \"id\": " ++ jsonQuote n.id ++
  ",\n        \"title\": " ++ jsonQuote n.title ++
  ",\n        \"description\": " ++ jsonQuote n.description ++
  ",\n        \"created_at\": " ++ jsonQuote n.created_at ++
  "\n    \x7d"

/-- Further notes, each preceded by a comma and a newline at one
indentation level (4 spaces). -/
def specPrettyItems : List Note → String
  | [] => ""
  | n :: rest => ",\n    " ++ specPrettyNote n ++ specPrettyItems rest

/-- The whole store: an empty array is just the brackets; otherwise the
notes at one indentation level between the brackets. -/
def specPrettyStore : List Note → String
  | [] => "[]"
  | n :: rest => "[\n    " ++ specPrettyNote n ++ specPrettyItems rest ++ "\n]"

/-- Whether a JSON value is an array. -/
def Json.isArr : Json → Bool
  | .arr _ => true
  | _ => false

/-! Concrete supplies and notes used by the closed concrete checks. -/

/-- A constant clock supply for concrete checks. -/
def nowsW : Nat → String := fun _ => "2030-01-01T00:00:00.000Z"

/-- A constant id supply for concrete checks. -/
def idsW : Nat → String := fun _ => "abcd1234"

/-- A second, different constant id supply for concrete checks. -/
def idsW2 : Nat → String := fun _ => "efgh5678"

/-- Concrete well-formed notes with increasing timestamps. -/
def noteA : Note := ⟨"aaa111bb", "T1", "D1", "2024-01-01T00:00:00.000Z"⟩

def noteB : Note := ⟨"ccc222dd", "T2", "D2", "2024-01-02T00:00:00.000Z"⟩

def noteC : Note := ⟨"eee333ff", "T3", "D3", "2024-01-03T00:00:00.000Z"⟩

/-- A store holding one legacy record without an id. -/
def stLegacyW : StoreFile :=
  .content (.arr [.obj [("title", .str "legacy"),
    ("created_at", .str "2024-01-01T00:00:00.000Z")]])

/-- A store holding the three notes out of timestamp order. -/
def stSortW : StoreFile :=
  .content (.arr [noteToJson noteA, noteToJson noteC, noteToJson noteB])

/-! Helper lemmas about the generic stable insertion sort. -/

theorem orderedInsert_perm {α : Type} (le : α → α → Bool) (a : α) (l : List α) :
    List.Perm (orderedInsert le a l) (a :: l) := by
  induction l with
  | nil => simp [orderedInsert]
  | cons b l ih =>
    simp only [orderedInsert]
    split
    · exact List.Perm.refl _
    · exact (ih.cons b).trans (List.Perm.swap a b l)

theorem insertionSort_perm {α : Type} (le : α → α → Bool) (l : List α) :
    List.Perm (insertionSort le l) l := by
  induction l with
  | nil => simp [insertionSort]
  | cons a l ih => exact ((orderedInsert_perm le a _).trans (ih.cons a))

theorem mem_orderedInsert {α : Type} (le : α → α → Bool) (a x : α) (l : List α) :
    x ∈ orderedInsert le a l ↔ x = a ∨ x ∈ l := by
  rw [(orderedInsert_perm le a l).mem_iff]
  simp

theorem orderedInsert_pairwise {α : Type} (le : α → α → Bool) (P : α → Prop)
    (htot : ∀ x y, P x → P y → le x y = true ∨ le y x = true)
    (htr : ∀ x y z, P x → P y → P z → le x y = true → le y z = true → le x z = true)
    (a : α) (ha : P a) : ∀ (l : List α), (∀ x ∈ l, P x) →
    l.Pairwise (fun x y => le x y = true) →
    (orderedInsert le a l).Pairwise (fun x y => le x y = true)
  | [], _, _ => by simp [orderedInsert]
  | b :: l, hl, hs => by
    have hb : P b := hl b (by simp)
    have hlt : ∀ x ∈ l, P x := fun x hx => hl x (by simp [hx])
    rw [List.pairwise_cons] at hs
    simp only [orderedInsert]
    split
    · rename_i hab
      rw [List.pairwise_cons]
      refine ⟨?_, List.pairwise_cons.mpr hs⟩
      intro x hx
      rcases List.mem_cons.mp hx with rfl | hx
      · exact hab
      · exact htr a b x ha hb (hlt x hx) hab (hs.1 x hx)
    · rename_i hab
      have hba : le b a = true := by
        rcases htot a b ha hb with h | h
        · exact absurd h hab
        · exact h
      rw [List.pairwise_cons]
      constructor
      · intro x hx
        rcases (mem_orderedInsert le a x l).mp hx with rfl | hx
        · exact hba
        · exact hs.1 x hx
      · exact orderedInsert_pairwise le P htot htr a ha l hlt hs.2

theorem insertionSort_pairwise {α : Type} (le : α → α → Bool) (P : α → Prop)
    (htot : ∀ x y, P x → P y → le x y = true ∨ le y x = true)
    (htr : ∀ x y z, P x → P y → P z → le x y = true → le y z = true → le x z = true) :
    ∀ (l : List α), (∀ x ∈ l, P x) →
    (insertionSort le l).Pairwise (fun x y => le x y = true)
  | [], _ => by simp [insertionSort]
  | a :: l, hl => by
    simp only [insertionSort]
    refine orderedInsert_pairwise le P htot htr a (hl a (by simp)) _ ?_ ?_
    · intro x hx
      exact hl x (List.mem_cons_of_mem a ((insertionSort_perm le l).mem_iff.mp hx))
    · exact insertionSort_pairwise le P htot htr l (fun x hx => hl x (by simp [hx]))

theorem insertionSort_of_forall_le {α : Type} (le : α → α → Bool) :
    ∀ (l : List α), (∀ x ∈ l, ∀ y ∈ l, le x y = true) → insertionSort le l = l
  | [], _ => rfl
  | a :: l, h => by
    have hl : insertionSort le l = l :=
      insertionSort_of_forall_le le l
        (fun x hx y hy => h x (by simp [hx]) y (by simp [hy]))
    simp only [insertionSort, hl]
    cases l with
    | nil => simp [orderedInsert]
    | cons b l =>
      simp only [orderedInsert]
      rw [if_pos (h a (by simp) b (by simp))]

/-! Helper lemmas about property reads after assignment. -/

theorem getField_cons (p : String × Json) (fs : List (String × Json)) (k : String) :
    getField (p :: fs) k = if (p.1 == k) = true then some p.2 else getField fs k := by
  by_cases hp : (p.1 == k) = true
  · rw [if_pos hp]
    unfold getField
    rw [List.find?_cons, hp]
    rfl
  · rw [if_neg hp]
    unfold getField
    rw [List.find?_cons, Bool.eq_false_iff.mpr hp]

theorem getField_map_set_other (fs : List (String × Json)) (k k2 : String) (v : Json)
    (hne : k2 ≠ k) :
    getField (fs.map (fun p => if p.1 == k then (k, v) else p)) k2 = getField fs k2 := by
  induction fs with
  | nil => rfl
  | cons p fs ih =>
    rw [List.map_cons]
    by_cases hp : (p.1 == k) = true
    · have hp1 : p.1 = k := by simpa using hp
      have hkk2 : ((k : String) == k2) = false := by
        simp only [beq_eq_false_iff_ne]
        exact fun h => hne h.symm
      rw [if_pos hp, getField_cons, getField_cons]
      dsimp only
      rw [hp1, hkk2]
      simpa using ih
    · rw [if_neg hp, getField_cons, getField_cons]
      by_cases hp2 : (p.1 == k2) = true
      · rw [if_pos hp2, if_pos hp2]
      · rw [if_neg hp2, if_neg hp2]
        exact ih

theorem getField_append_single_other (fs : List (String × Json)) (k k2 : String) (v : Json)
    (hne : k2 ≠ k) :
    getField (fs ++ [(k, v)]) k2 = getField fs k2 := by
  have hkk2 : ((k : String) == k2) = false := by
    simp only [beq_eq_false_iff_ne]
    exact fun h => hne h.symm
  induction fs with
  | nil =>
    rw [List.nil_append, getField_cons]
    dsimp only
    rw [hkk2]
    rfl
  | cons p fs ih =>
    rw [List.cons_append, getField_cons, getField_cons]
    by_cases hp2 : (p.1 == k2) = true
    · rw [if_pos hp2, if_pos hp2]
    · rw [if_neg hp2, if_neg hp2]
      exact ih

theorem getField_setField_self (fs : List (String × Json)) (k : String) (v : Json) :
    getField (setField fs k v) k = some v := by
  unfold setField
  split
  · rename_i hany
    induction fs with
    | nil => simp at hany
    | cons p fs ih =>
      rw [List.map_cons]
      by_cases hp : (p.1 == k) = true
      · rw [if_pos hp, getField_cons]
        dsimp only
        simp
      · rw [List.any_cons] at hany
        simp only [hp, Bool.false_or] at hany
        rw [if_neg hp, getField_cons, if_neg hp]
        exact ih hany
  · rename_i hany
    induction fs with
    | nil =>
      rw [List.nil_append, getField_cons]
      dsimp only
      simp
    | cons p fs ih =>
      rw [List.any_cons] at hany
      simp only [Bool.or_eq_true, not_or] at hany
      rw [List.cons_append, getField_cons, if_neg hany.1]
      exact ih (by simpa using hany.2)

theorem getField_setField_other (fs : List (String × Json)) (k k2 : String) (v : Json)
    (hne : k2 ≠ k) : getField (setField fs k v) k2 = getField fs k2 := by
  unfold setField
  split
  · exact getField_map_set_other fs k k2 v hne
  · exact getField_append_single_other fs k k2 v hne

/-! Helper lemmas about the normalization pass. -/

theorem normElem_skip (nows ids : Nat → String) (t i : Nat) (e : Json)
    (h : normSkips e = true) : normElem nows ids t i e = .ok (e, t, i) := by
  cases e with
  | obj fs =>
    have h1 : jsFalsyOpt (getField fs "created_at") = false := by
      have := (Bool.and_eq_true _ _).mp h
      simpa using this.1
    have h2 : jsFalsyOpt (getField fs "id") = false := by
      have := (Bool.and_eq_true _ _).mp h
      simpa using this.2
    simp [normElem, h1, h2]
  | null => simp [normSkips] at h
  | bool b => simp [normSkips] at h
  | num n => simp [normSkips] at h
  | str s => simp [normSkips] at h
  | arr l => simp [normSkips] at h

theorem normList_id (nows ids : Nat → String) :
    ∀ (l : List Json), (∀ e ∈ l, normSkips e = true) →
    ∀ (t i : Nat), normList nows ids l t i = .ok (l, t, i)
  | [], _, t, i => rfl
  | e :: rest, h, t, i => by
    rw [normList, normElem_skip nows ids t i e (h e (by simp))]
    dsimp only
    rw [normList_id nows ids rest (fun x hx => h x (by simp [hx])) t i]

theorem normSkips_noteToJson (n : Note) (h : n.wellFormed) :
    normSkips (noteToJson n) = true := by
  obtain ⟨h1, h2⟩ := h
  simp [normSkips, noteToJson, getField_cons, jsFalsyOpt, jsTruthy, h1, h2]

/-! Helper lemmas for the normalization of loosely-typed records. -/

theorem optStr_truthy {o : Option Json} (h1 : optStrField o = true)
    (h2 : jsFalsyOpt o = false) : ∃ s, o = some (.str s) ∧ s ≠ "" := by
  match o with
  | none => simp [jsFalsyOpt] at h2
  | some (.str s) =>
    refine ⟨s, rfl, ?_⟩
    simpa [jsFalsyOpt, jsTruthy] using h2
  | some .null => simp [optStrField] at h1
  | some (.bool b) => simp [optStrField] at h1
  | some (.num m) => simp [optStrField] at h1
  | some (.arr l) => simp [optStrField] at h1
  | some (.obj fs) => simp [optStrField] at h1

theorem normElem_strRecord (nows ids : Nat → String) (hnows : ∀ k, nows k ≠ "")
    (hids : ∀ k, ids k ≠ "") (t i : Nat) (r : Json) (hr : isStrRecord r = true)
    (r' : Json) (t' i' : Nat)
    (h : normElem nows ids t i r = .ok (r', t', i')) :
    hasNonEmptyStr r' "id" ∧ hasNonEmptyStr r' "created_at" := by
  match r with
  | .null => simp [isStrRecord] at hr
  | .bool b => simp [isStrRecord] at hr
  | .num m => simp [isStrRecord] at hr
  | .str s => simp [isStrRecord] at hr
  | .arr l => simp [isStrRecord] at hr
  | .obj fs =>
    have hrid : optStrField (getField fs "id") = true := by
      have := (Bool.and_eq_true _ _).mp hr
      exact this.1
    have hrca : optStrField (getField fs "created_at") = true := by
      have := (Bool.and_eq_true _ _).mp hr
      exact this.2
    have hne : ("id" : String) ≠ "created_at" := by decide
    by_cases hca : jsFalsyOpt (getField fs "created_at") = true
    · -- created_at is backfilled with the current timestamp
      set fs1 := setField fs "created_at" (.str (nows t)) with hfs1
      have hca1 : getField fs1 "created_at" = some (.str (nows t)) :=
        getField_setField_self fs "created_at" (.str (nows t))
      have hid1 : getField fs1 "id" = getField fs "id" :=
        getField_setField_other fs "created_at" "id" (.str (nows t)) hne
      by_cases hid : jsFalsyOpt (getField fs1 "id") = true
      · have hr' : r' = .obj (setField fs1 "id" (.str (ids i))) := by
          simp [normElem, hca, hid, hfs1] at h
          exact h.1.symm
        subst hr'
        constructor
        · exact ⟨ids i, getField_setField_self fs1 "id" (.str (ids i)), hids i⟩
        · refine ⟨nows t, ?_, hnows t⟩
          show getField (setField fs1 "id" (.str (ids i))) "created_at" = some (.str (nows t))
          rw [getField_setField_other fs1 "id" "created_at" (.str (ids i)) hne.symm]
          exact hca1
      · have hr' : r' = .obj fs1 := by
          simp [normElem, hca, hid, hfs1] at h
          exact h.1.symm
        subst hr'
        constructor
        · obtain ⟨s, hs, hsne⟩ :=
            optStr_truthy (hid1 ▸ hrid) (by simpa using hid)
          exact ⟨s, by simpa [getNoteField] using hs, hsne⟩
        · exact ⟨nows t, hca1, hnows t⟩
    · -- created_at was already truthy
      have hcaf : jsFalsyOpt (getField fs "created_at") = false := by
        simpa using hca
      obtain ⟨sca, hsca, hscane⟩ := optStr_truthy hrca hcaf
      by_cases hid : jsFalsyOpt (getField fs "id") = true
      · have hr' : r' = .obj (setField fs "id" (.str (ids i))) := by
          simp [normElem, hcaf, hid] at h
          exact h.1.symm
        subst hr'
        constructor
        · exact ⟨ids i, getField_setField_self fs "id" (.str (ids i)), hids i⟩
        · refine ⟨sca, ?_, hscane⟩
          show getField (setField fs "id" (.str (ids i))) "created_at" = some (.str sca)
          rw [getField_setField_other fs "id" "created_at" (.str (ids i)) hne.symm]
          exact hsca
      · have hidf : jsFalsyOpt (getField fs "id") = false := by simpa using hid
        obtain ⟨sid, hsid, hsidne⟩ := optStr_truthy hrid hidf
        have hr' : r' = .obj fs := by
          simp [normElem, hcaf, hidf] at h
          exact h.1.symm
        subst hr'
        exact ⟨⟨sid, hsid, hsidne⟩, ⟨sca, hsca, hscane⟩⟩

theorem normList_strRecords (nows ids : Nat → String) (hnows : ∀ k, nows k ≠ "")
    (hids : ∀ k, ids k ≠ "") :
    ∀ (l : List Json), (∀ e ∈ l, isStrRecord e = true) → ∀ (t i : Nat)
    (l' : List Json) (t' i' : Nat), normList nows ids l t i = .ok (l', t', i') →
    ∀ n ∈ l', hasNonEmptyStr n "id" ∧ hasNonEmptyStr n "created_at"
  | [], _, t, i, l', t', i', h => by
    simp [normList] at h
    intro n hn
    rw [h.1] at hn
    simp at hn
  | e :: rest, hall, t, i, l', t', i', h => by
    rw [normList] at h
    match he : normElem nows ids t i e with
    | .error () => rw [he] at h; exact absurd h (by simp)
    | .ok (e1, t1, i1) =>
      rw [he] at h
      dsimp only at h
      match hrest : normList nows ids rest t1 i1 with
      | .error () =>
        rw [hrest] at h
        exact absurd h (by simp)
      | .ok (l2, t2, i2) =>
        rw [hrest] at h
        dsimp only at h
        have hl' : l' = e1 :: l2 := by
          simp at h
          exact h.1.symm
        subst hl'
        intro n hn
        rcases List.mem_cons.mp hn with rfl | hn
        · exact normElem_strRecord nows ids hnows hids t i e (hall e (by simp)) n t1 i1 he
        · exact normList_strRecords nows ids hnows hids rest
            (fun x hx => hall x (by simp [hx])) t1 i1 l2 t2 i2 hrest n hn

theorem serJson_noteToJson (n : Note) :
    serJson "    " "    " (noteToJson n) = specPrettyNote n := by
  have hid : jsonQuote "id" = "\"id\"" := by decide
  have htitle : jsonQuote "title" = "\"title\"" := by decide
  have hdesc : jsonQuote "description" = "\"description\"" := by decide
  have hca : jsonQuote "created_at" = "\"created_at\"" := by decide
  rw [noteToJson]
  simp only [serJson, serFields, hid, htitle, hdesc, hca]
  apply String.ext
  simp [specPrettyNote]

theorem serList_noteToJson : ∀ (l : List Note) (x : Note),
    serList "    " "    " (noteToJson x) (l.map noteToJson) =
      specPrettyNote x ++ specPrettyItems l
  | [], x => by
    rw [List.map_nil, serList, serJson_noteToJson, specPrettyItems]
    apply String.ext
    simp
  | y :: rest, x => by
    rw [List.map_cons, serList, serJson_noteToJson, serList_noteToJson rest y, specPrettyItems]
    apply String.ext
    simp

theorem saveNotesText_spec (notes : List Note) :
    saveNotesText (notes.map noteToJson) = specPrettyStore notes := by
  cases notes with
  | nil => simp [saveNotesText, jsonStringify, serJson, specPrettyStore]
  | cons n rest =>
    rw [saveNotesText, jsonStringify, List.map_cons]
    simp only [serJson]
    rw [show ("" ++ "    " : String) = "    " from rfl]
    rw [serList_noteToJson rest n, specPrettyStore]
    apply String.ext
    simp

/-! The claims. -/

/-- Claim C4: the load operation never fails fatally.  A missing or
zero-length store file yields the empty sequence with no message; malformed
JSON yields a warning and the empty sequence; any other read error is
reported and also degrades to the empty sequence.  In every case loadNotes
returns normally. -/
theorem loadNotes_never_fatal (nows ids : Nat → String) :
    loadNotes .missing nows ids = ⟨[], false, false, 0, 0, .missing⟩
    ∧ loadNotes .emptyFile nows ids = ⟨[], false, false, 0, 0, .emptyFile⟩
    ∧ loadNotes .malformed nows ids = ⟨[], true, false, 0, 0, .malformed⟩
    ∧ loadNotes .ioError nows ids = ⟨[], false, true, 0, 0, .ioError⟩ :=
  ⟨rfl, rfl, rfl, rfl⟩

/-- Claim C10: when the store file parses to valid JSON that is not an
array, the load operation does not crash: the TypeError from calling map on
a non-array is caught by the generic handler, reported as an error (not as
the corruption warning), and load returns the empty sequence. -/
theorem loadNotes_nonarray_degrades (j : Json) (nows ids : Nat → String)
    (hj : j.isArr = false) :
    (loadNotes (.content j) nows ids).notes = []
    ∧ (loadNotes (.content j) nows ids).erroredLoad = true
    ∧ (loadNotes (.content j) nows ids).warnedCorrupt = false := by
  cases j with
  | arr xs => simp [Json.isArr] at hj
  | null => exact ⟨rfl, rfl, rfl⟩
  | bool b => exact ⟨rfl, rfl, rfl⟩
  | num n => exact ⟨rfl, rfl, rfl⟩
  | str s => exact ⟨rfl, rfl, rfl⟩
  | obj fs => exact ⟨rfl, rfl, rfl⟩

/-- Witness for C10 at the concrete non-array contents 5, a string and an
object. -/
theorem loadNotes_nonarray_degrades_witness :
    ((Json.num 5).isArr = false
      ∧ (loadNotes (.content (.num 5)) nowsW idsW).notes = []
      ∧ (loadNotes (.content (.num 5)) nowsW idsW).erroredLoad = true
      ∧ (loadNotes (.content (.num 5)) nowsW idsW).warnedCorrupt = false)
    ∧ ((Json.str "hi").isArr = false
      ∧ (loadNotes (.content (.str "hi")) nowsW idsW).notes = []
      ∧ (loadNotes (.content (.str "hi")) nowsW idsW).erroredLoad = true
      ∧ (loadNotes (.content (.str "hi")) nowsW idsW).warnedCorrupt = false) :=
  ⟨⟨by decide, loadNotes_nonarray_degrades (.num 5) nowsW idsW (by decide)⟩,
   ⟨by decide, loadNotes_nonarray_degrades (.str "hi") nowsW idsW (by decide)⟩⟩

/-- Claim C2: delete removes, from the loaded sequence, exactly the
elements whose id strictly equals the given id, by one filter over the
whole sequence: the kept list is a sublist (order preserved), contains no
match, and keeps the multiplicity of every non-matching element; the
deleted-successfully message is printed exactly when the count shrank, and
in that case the new sequence is persisted and the delete command exits
with success status 0. -/
theorem deleteNote_removes_matches (st : StoreFile) (noteId : String)
    (nows ids : Nat → String) :
    (deleteNote st noteId nows ids).found
      = decide (((loadNotes st nows ids).notes.filter
          (fun n => !(idMatches noteId n))).length < (loadNotes st nows ids).notes.length)
    ∧ ((loadNotes st nows ids).notes.filter (fun n => !(idMatches noteId n))).Sublist
        (loadNotes st nows ids).notes
    ∧ (∀ n ∈ (loadNotes st nows ids).notes.filter (fun n => !(idMatches noteId n)),
        idMatches noteId n = false)
    ∧ (∀ n : Json, idMatches noteId n = false →
        ((loadNotes st nows ids).notes.filter (fun n => !(idMatches noteId n))).count n
          = (loadNotes st nows ids).notes.count n)
    ∧ (((loadNotes st nows ids).notes.filter
          (fun n => !(idMatches noteId n))).length < (loadNotes st nows ids).notes.length →
        (deleteNote st noteId nows ids).store
          = saveNotes st ((loadNotes st nows ids).notes.filter (fun n => !(idMatches noteId n)))
        ∧ mainDelete st (some noteId) nows ids
          = (saveNotes st ((loadNotes st nows ids).notes.filter
              (fun n => !(idMatches noteId n))), 0)) := by
  refine ⟨?_, List.filter_sublist _, ?_, ?_, ?_⟩
  · by_cases hlt : ((loadNotes st nows ids).notes.filter
        (fun n => !(idMatches noteId n))).length < (loadNotes st nows ids).notes.length
    · simp [deleteNote, hlt]
    · simp [deleteNote, hlt]
  · intro n hn
    have := (List.mem_filter.mp hn).2
    simpa using this
  · intro n hn
    exact List.count_filter (by simpa using hn)
  · intro hlt
    constructor
    · simp [deleteNote, hlt]
    · simp [mainDelete, deleteNote, hlt]

/-- Witness for C2: deleting id aaa111bb from the store holding noteA and
noteB keeps exactly noteB and persists it. -/
theorem deleteNote_removes_matches_witness :
    (deleteNote (.content (.arr [noteToJson noteA, noteToJson noteB])) "aaa111bb" nowsW idsW).found
      = decide ((((loadNotes (.content (.arr [noteToJson noteA, noteToJson noteB])) nowsW idsW).notes.filter
          (fun n => !(idMatches "aaa111bb" n))).length
            < (loadNotes (.content (.arr [noteToJson noteA, noteToJson noteB])) nowsW idsW).notes.length))
    ∧ (((loadNotes (.content (.arr [noteToJson noteA, noteToJson noteB])) nowsW idsW).notes.filter
        (fun n => !(idMatches "aaa111bb" n))).Sublist
          (loadNotes (.content (.arr [noteToJson noteA, noteToJson noteB])) nowsW idsW).notes)
    ∧ (∀ n ∈ (loadNotes (.content (.arr [noteToJson noteA, noteToJson noteB])) nowsW idsW).notes.filter
        (fun n => !(idMatches "aaa111bb" n)), idMatches "aaa111bb" n = false)
    ∧ (∀ n : Json, idMatches "aaa111bb" n = false →
        (((loadNotes (.content (.arr [noteToJson noteA, noteToJson noteB])) nowsW idsW).notes.filter
          (fun n => !(idMatches "aaa111bb" n))).count n
            = (loadNotes (.content (.arr [noteToJson noteA, noteToJson noteB])) nowsW idsW).notes.count n))
    ∧ ((((loadNotes (.content (.arr [noteToJson noteA, noteToJson noteB])) nowsW idsW).notes.filter
          (fun n => !(idMatches "aaa111bb" n))).length
            < (loadNotes (.content (.arr [noteToJson noteA, noteToJson noteB])) nowsW idsW).notes.length →
        (deleteNote (.content (.arr [noteToJson noteA, noteToJson noteB])) "aaa111bb" nowsW idsW).store
          = saveNotes (.content (.arr [noteToJson noteA, noteToJson noteB]))
              ((loadNotes (.content (.arr [noteToJson noteA, noteToJson noteB])) nowsW idsW).notes.filter
                (fun n => !(idMatches "aaa111bb" n)))
        ∧ mainDelete (.content (.arr [noteToJson noteA, noteToJson noteB])) (some "aaa111bb") nowsW idsW
          = (saveNotes (.content (.arr [noteToJson noteA, noteToJson noteB]))
              ((loadNotes (.content (.arr [noteToJson noteA, noteToJson noteB])) nowsW idsW).notes.filter
                (fun n => !(idMatches "aaa111bb" n))), 0))) :=
  deleteNote_removes_matches (.content (.arr [noteToJson noteA, noteToJson noteB])) "aaa111bb" nowsW idsW

/-- Claim C3: deleting an id that matches no loaded note leaves the
persisted store untouched (no save happens: the store file is exactly the
input store), prints the no-note-found message, and the delete command
still exits with success status 0. -/
theorem deleteNote_unknown_id (st : StoreFile) (noteId : String) (nows ids : Nat → String)
    (h : ∀ n ∈ (loadNotes st nows ids).notes, idMatches noteId n = false) :
    (deleteNote st noteId nows ids).store = st
    ∧ (deleteNote st noteId nows ids).found = false
    ∧ mainDelete st (some noteId) nows ids = (st, 0) := by
  have hfil : (loadNotes st nows ids).notes.filter (fun n => !(idMatches noteId n))
      = (loadNotes st nows ids).notes :=
    List.filter_eq_self.mpr (fun a ha => by simp [h a ha])
  have hnlt : ¬(((loadNotes st nows ids).notes.filter
      (fun n => !(idMatches noteId n))).length < (loadNotes st nows ids).notes.length) := by
    rw [hfil]
    exact Nat.lt_irrefl _
  refine ⟨?_, ?_, ?_⟩
  · simp [deleteNote, hnlt]
  · simp [deleteNote, hnlt]
  · simp [mainDelete, deleteNote, hnlt]

/-- Witness for C3 at a store holding noteA and an id matching nothing. -/
theorem deleteNote_unknown_id_witness :
    (∀ n ∈ (loadNotes (.content (.arr [noteToJson noteA])) nowsW idsW).notes,
      idMatches "zzzzzzzz" n = false)
    ∧ (deleteNote (.content (.arr [noteToJson noteA])) "zzzzzzzz" nowsW idsW).store
        = .content (.arr [noteToJson noteA])
    ∧ (deleteNote (.content (.arr [noteToJson noteA])) "zzzzzzzz" nowsW idsW).found = false
    ∧ mainDelete (.content (.arr [noteToJson noteA])) (some "zzzzzzzz") nowsW idsW
        = (.content (.arr [noteToJson noteA]), 0) := by
  refine ⟨by decide, ?_⟩
  exact deleteNote_unknown_id (.content (.arr [noteToJson noteA])) "zzzzzzzz" nowsW idsW (by decide)

/-- Claim C1 counterexample: a note whose id is the empty string has string
id, title, description and created_at fields, yet saving it and loading the
result does not give back an equivalent sequence: the falsy empty id is
replaced by a freshly generated one during load. -/
theorem save_load_roundtrip_counterexample :
    (loadNotes (saveNotes .missing
        [noteToJson ⟨"", "t", "d", "2024-01-01T00:00:00.000Z"⟩]) nowsW idsW).notes
      ≠ [noteToJson ⟨"", "t", "d", "2024-01-01T00:00:00.000Z"⟩]
    ∧ (loadNotes (saveNotes .missing
        [noteToJson ⟨"", "t", "d", "2024-01-01T00:00:00.000Z"⟩]) nowsW idsW).notes
      = [.obj [("id", .str "abcd1234"), ("title", .str "t"), ("description", .str "d"),
          ("created_at", .str "2024-01-01T00:00:00.000Z")]] := by
  constructor
  · decide
  · decide

/-- Claim C1 (amended): for every sequence of well-formed notes with
non-empty id and non-empty created_at, saving the sequence and loading it
back returns exactly the same sequence of notes, for sequences of any
length. -/
theorem save_load_roundtrip (st : StoreFile) (notes : List Note) (nows ids : Nat → String)
    (h : ∀ n ∈ notes, n.wellFormed) :
    (loadNotes (saveNotes st (notes.map noteToJson)) nows ids).notes = notes.map noteToJson := by
  have hnorm : normList nows ids (notes.map noteToJson) 0 0 = .ok (notes.map noteToJson, 0, 0) :=
    normList_id nows ids _ (fun e he => by
      obtain ⟨n, hn, rfl⟩ := List.mem_map.mp he
      exact normSkips_noteToJson n (h n hn)) 0 0
  simp [loadNotes, saveNotes, hnorm]

/-- Witness for C1 (amended) at a two-note sequence; the empty sequence and
one-note sequences are instances of the same theorem. -/
theorem save_load_roundtrip_witness :
    (∀ n ∈ [noteA, noteB], n.wellFormed)
    ∧ (loadNotes (saveNotes .missing ([noteA, noteB].map noteToJson)) nowsW idsW).notes
        = [noteA, noteB].map noteToJson :=
  ⟨by decide, save_load_roundtrip .missing [noteA, noteB] nowsW idsW (by decide)⟩

/-- Claim C5 counterexample: a record whose created_at is the non-empty
string zzz passes through the normalization pass unchanged, so the loaded
sequence contains a note whose created_at does not parse as a date; the
normalization pass therefore does not guarantee a parseable created_at. -/
theorem loadNotes_normalization_counterexample :
    (loadNotes (.content (.arr [.obj [("id", .str "x1y2z3w4"), ("title", .str "t"),
        ("description", .str "d"), ("created_at", .str "zzz")]])) nowsW idsW).notes
      = [.obj [("id", .str "x1y2z3w4"), ("title", .str "t"), ("description", .str "d"),
          ("created_at", .str "zzz")]]
    ∧ parseISODate "zzz" = none
    ∧ createdAtOf (.obj [("id", .str "x1y2z3w4"), ("title", .str "t"),
        ("description", .str "d"), ("created_at", .str "zzz")]) = none := by
  refine ⟨by decide, by decide, by decide⟩

/-- Claim C5 (amended): over records whose id and created_at fields are
absent or strings, every note produced by the normalization pass has a
non-empty string id and a non-empty string created_at, provided the id
generator and the clock yield non-empty strings; a record missing both
fields is assigned the current timestamp and then a freshly generated id.
A created_at that was already a non-empty string is kept verbatim, so
parseability is not guaranteed. -/
theorem loadNotes_normalization (recs : List Json) (nows ids : Nat → String)
    (hnows : ∀ k, nows k ≠ "") (hids : ∀ k, ids k ≠ "")
    (hrecs : ∀ r ∈ recs, isStrRecord r = true) :
    (∀ n ∈ (loadNotes (.content (.arr recs)) nows ids).notes,
      hasNonEmptyStr n "id" ∧ hasNonEmptyStr n "created_at")
    ∧ (loadNotes (.content (.arr [.obj []])) nows ids).notes
        = [.obj [("created_at", .str (nows 0)), ("id", .str (ids 0))]] := by
  constructor
  · intro n hn
    cases hnl : normList nows ids recs 0 0 with
    | error u =>
      cases u
      simp [loadNotes, hnl] at hn
    | ok triple =>
      obtain ⟨l, t, i⟩ := triple
      simp only [loadNotes, hnl] at hn
      exact normList_strRecords nows ids hnows hids recs hrecs 0 0 l t i hnl n hn
  · rfl

/-- Witness for C5 (amended) at a store holding one record with neither
field, one with only a title, and one full well-formed note. -/
theorem loadNotes_normalization_witness :
    ((∀ k, nowsW k ≠ "") ∧ (∀ k, idsW k ≠ "")
      ∧ (∀ r ∈ [Json.obj [], .obj [("title", .str "t")], noteToJson noteA],
          isStrRecord r = true))
    ∧ ((∀ n ∈ (loadNotes (.content (.arr [Json.obj [], .obj [("title", .str "t")],
          noteToJson noteA])) nowsW idsW).notes,
        hasNonEmptyStr n "id" ∧ hasNonEmptyStr n "created_at")
      ∧ (loadNotes (.content (.arr [.obj []])) nowsW idsW).notes
          = [.obj [("created_at", .str (nowsW 0)), ("id", .str (idsW 0))]]) :=
  ⟨⟨fun _ => by simp only [nowsW]; decide, fun _ => by simp only [idsW]; decide, by decide⟩,
   loadNotes_normalization [Json.obj [], .obj [("title", .str "t")], noteToJson noteA]
     nowsW idsW (fun _ => by simp only [nowsW]; decide) (fun _ => by simp only [idsW]; decide)
     (by decide)⟩

/-- loadNotes performs no write: the store file after a load is the input
store file, whatever it was. -/
theorem loadNotes_store_eq (st : StoreFile) (nows ids : Nat → String) :
    (loadNotes st nows ids).store = st := by
  cases st with
  | missing => rfl
  | emptyFile => rfl
  | malformed => rfl
  | ioError => rfl
  | content j =>
    cases j with
    | arr xs =>
      dsimp only [loadNotes]
      split <;> rfl
    | null => rfl
    | bool b => rfl
    | num n => rfl
    | str s => rfl
    | obj fs => rfl

/-- Claim C9: load never writes the store file, so the ids backfilled by the
normalization pass exist only in memory: for a persisted record lacking an
id, two loads drawing from different fresh-id supplies return that record
with different, independently generated ids, while the store file itself is
unchanged by every load. -/
theorem loadNotes_no_write_fresh_ids (st : StoreFile) (nows nows2 ids ids2 : Nat → String)
    (h : ids 0 ≠ ids2 0) :
    (loadNotes st nows ids).store = st
    ∧ (loadNotes stLegacyW nows ids).notes
        = [.obj [("title", .str "legacy"), ("created_at", .str "2024-01-01T00:00:00.000Z"),
            ("id", .str (ids 0))]]
    ∧ (loadNotes stLegacyW nows2 ids2).notes
        = [.obj [("title", .str "legacy"), ("created_at", .str "2024-01-01T00:00:00.000Z"),
            ("id", .str (ids2 0))]]
    ∧ (loadNotes stLegacyW nows ids).notes ≠ (loadNotes stLegacyW nows2 ids2).notes := by
  have e1 : (loadNotes stLegacyW nows ids).notes
      = [.obj [("title", .str "legacy"), ("created_at", .str "2024-01-01T00:00:00.000Z"),
          ("id", .str (ids 0))]] := rfl
  have e2 : (loadNotes stLegacyW nows2 ids2).notes
      = [.obj [("title", .str "legacy"), ("created_at", .str "2024-01-01T00:00:00.000Z"),
          ("id", .str (ids2 0))]] := rfl
  refine ⟨loadNotes_store_eq st nows ids, e1, e2, ?_⟩
  rw [e1, e2]
  intro hc
  apply h
  simpa using hc

/-- Witness for C9 with the two concrete supplies idsW and idsW2. -/
theorem loadNotes_no_write_fresh_ids_witness :
    idsW 0 ≠ idsW2 0
    ∧ ((loadNotes .malformed nowsW idsW).store = .malformed
    ∧ (loadNotes stLegacyW nowsW idsW).notes
        = [.obj [("title", .str "legacy"), ("created_at", .str "2024-01-01T00:00:00.000Z"),
            ("id", .str (idsW 0))]]
    ∧ (loadNotes stLegacyW nowsW idsW2).notes
        = [.obj [("title", .str "legacy"), ("created_at", .str "2024-01-01T00:00:00.000Z"),
            ("id", .str (idsW2 0))]]
    ∧ (loadNotes stLegacyW nowsW idsW).notes ≠ (loadNotes stLegacyW nowsW idsW2).notes) :=
  ⟨by decide, loadNotes_no_write_fresh_ids .malformed nowsW nowsW idsW idsW2 (by decide)⟩

/-- Claim C6: when every loaded note has a parseable created_at, the list
operation displays a permutation of the loaded notes ordered by created_at
descending, most recent first. -/
theorem listNotes_sorted_desc (st : StoreFile) (nows ids : Nat → String)
    (hp : ∀ n ∈ (loadNotes st nows ids).notes, (createdAtOf n).isSome) :
    List.Perm (listNotes st nows ids).displayed (loadNotes st nows ids).notes
    ∧ (listNotes st nows ids).displayed.Pairwise
        (fun a b => ∀ ta tb, createdAtOf a = some ta → createdAtOf b = some tb → tb ≤ ta) := by
  have htot : ∀ x y : Json, (createdAtOf x).isSome → (createdAtOf y).isSome →
      jsLe x y = true ∨ jsLe y x = true := by
    intro x y hx hy
    obtain ⟨tx, hx⟩ := Option.isSome_iff_exists.mp hx
    obtain ⟨ty, hy⟩ := Option.isSome_iff_exists.mp hy
    simp only [jsLe, listCompare, hx, hy, decide_eq_true_eq]
    omega
  have htr : ∀ x y z : Json, (createdAtOf x).isSome → (createdAtOf y).isSome →
      (createdAtOf z).isSome → jsLe x y = true → jsLe y z = true → jsLe x z = true := by
    intro x y z hx hy hz hxy hyz
    obtain ⟨tx, hx⟩ := Option.isSome_iff_exists.mp hx
    obtain ⟨ty, hy⟩ := Option.isSome_iff_exists.mp hy
    obtain ⟨tz, hz⟩ := Option.isSome_iff_exists.mp hz
    simp only [jsLe, listCompare, hx, hy, hz, decide_eq_true_eq] at hxy hyz ⊢
    omega
  by_cases he : (loadNotes st nows ids).notes.isEmpty
  · have hnil : (loadNotes st nows ids).notes = [] := by simpa using he
    constructor
    · simp [listNotes, he, hnil]
    · simp [listNotes, he]
  · have hd : (listNotes st nows ids).displayed
        = insertionSort jsLe (loadNotes st nows ids).notes := by
      simp [listNotes, he]
    constructor
    · rw [hd]
      exact insertionSort_perm jsLe (loadNotes st nows ids).notes
    · rw [hd]
      have hpw := insertionSort_pairwise jsLe (fun n => (createdAtOf n).isSome)
        htot htr (loadNotes st nows ids).notes hp
      refine hpw.imp ?_
      intro a b hab ta tb hta htb
      simp only [jsLe, listCompare, hta, htb, decide_eq_true_eq] at hab
      omega

/-- Witness for C6: for stored timestamps T1 < T2 < T3 (noteA, noteB,
noteC) stored in the order A, C, B, the displayed order is C, B, A, i.e.
T3, T2, T1. -/
theorem listNotes_sorted_desc_witness :
    (∀ n ∈ (loadNotes stSortW nowsW idsW).notes, (createdAtOf n).isSome)
    ∧ (List.Perm (listNotes stSortW nowsW idsW).displayed
          (loadNotes stSortW nowsW idsW).notes
      ∧ (listNotes stSortW nowsW idsW).displayed.Pairwise
          (fun a b => ∀ ta tb, createdAtOf a = some ta → createdAtOf b = some tb → tb ≤ ta))
    ∧ (listNotes stSortW nowsW idsW).displayed
        = [noteToJson noteC, noteToJson noteB, noteToJson noteA] :=
  ⟨by decide, listNotes_sorted_desc stSortW nowsW idsW (by decide), by decide⟩

/-- Claim C7: the invalid-date warning is never emitted, because the catch
wrapping the comparator is unreachable (the Date constructor returns an
invalid date rather than throwing); at a store of two notes whose
timestamps fail to parse, the displayed order is the stored order (the
comparator ties, NaN being treated as 0, and the stable sort keeps the
order), but contrary to the claim no warning accompanies it. -/
theorem listNotes_unparseable_no_warning :
    (∀ (st : StoreFile) (nows ids : Nat → String),
      (listNotes st nows ids).warnedDates = false)
    ∧ (listNotes (.content (.arr [noteToJson ⟨"a1b2c3d4", "t1", "d1", "zzz"⟩,
        noteToJson ⟨"e5f6g7h8", "t2", "d2", "yyy"⟩])) nowsW idsW).displayed
      = [noteToJson ⟨"a1b2c3d4", "t1", "d1", "zzz"⟩,
         noteToJson ⟨"e5f6g7h8", "t2", "d2", "yyy"⟩]
    ∧ (listNotes (.content (.arr [noteToJson ⟨"a1b2c3d4", "t1", "d1", "zzz"⟩,
        noteToJson ⟨"e5f6g7h8", "t2", "d2", "yyy"⟩])) nowsW idsW).warnedDates = false := by
  refine ⟨?_, by decide, by decide⟩
  intro st nows ids
  dsimp only [listNotes]
  split <;> rfl

/-- Claim C8: saveNotes rewrites the store file wholesale with exactly the
given sequence (the result does not depend on the previous store contents,
so nothing is appended), and the text written is the pretty-printed JSON
array with 4-space indentation and, per note, the key order id, title,
description, created_at, which stems from the object literal built in
createNote. -/
theorem saveNotes_pretty_overwrite (st st2 : StoreFile) (notes : List Note) :
    saveNotes st (notes.map noteToJson) = .content (.arr (notes.map noteToJson))
    ∧ saveNotes st (notes.map noteToJson) = saveNotes st2 (notes.map noteToJson)
    ∧ saveNotesText (notes.map noteToJson) = specPrettyStore notes :=
  ⟨rfl, rfl, saveNotesText_spec notes⟩

end NotesCLI
